import Mathlib

/-!
Verification of the static source analyzer (`src/analyzer.js`) of the
`test-gen` repository.

The analyzer recovers a symbol table from raw source text by lexical
pattern matching.  This file gives a shallow embedding of the analyzer:

* the JavaScript regular expressions used by the analyzer are small and
  essentially deterministic; each one is embedded as a hand-written
  matcher on `List Char` that reproduces the regex semantics, including
  the `exec`-with-`g`-flag scan loop (try each start position from left
  to right, continue after the end of each match) and the finitely many
  backtracking points the patterns actually have (optional groups and
  the modifier/comma repetition loops, tried greedily, longest first);
* the brace-depth class-body scanner is embedded as a recursive scan;
* Node's `path.extname` / `path.dirname` (POSIX) algorithms are embedded
  directly from their upstream definitions, since the analyzer's
  behaviour depends on them;
* the filesystem is modelled as a structure of query functions: reading
  and JSON-parsing `package.json` in a directory yields `Option Pkg`
  (`none` covers both a missing file and a parse failure, which the
  analyzer treats identically via `try/catch`), reading
  `pyproject.toml` yields `Option String`, and `access` on a config
  file name yields `Bool`.  `JSON.stringify` on the flat merged
  dependency object is embedded with standard JSON string escaping.

All definitions are executable and match the JavaScript source
constructs one for one; theorems at the end settle the specification
claims.
-/

namespace TestGen

/-- The JavaScript `\s` character class (ECMAScript WhiteSpace plus
LineTerminator), also used by `String.prototype.trim`. -/
def isJsSpace (c : Char) : Bool :=
  c == ' ' || c == '\t' || c == '\n' || c == '\x0b' || c == '\x0c' || c == '\r' ||
  c == '\xa0' || c == '\u1680' || c == '\u2000' || c == '\u2001' || c == '\u2002' ||
  c == '\u2003' || c == '\u2004' || c == '\u2005' || c == '\u2006' || c == '\u2007' ||
  c == '\u2008' || c == '\u2009' || c == '\u200a' || c == '\u2028' || c == '\u2029' ||
  c == '\u202f' || c == '\u205f' || c == '\u3000' || c == '\ufeff'

/-- The JavaScript `\w` character class `[A-Za-z0-9_]`. -/
def isWordChar (c : Char) : Bool :=
  c.isAlphanum || c == '_'

/-- JavaScript line terminators (after which `^` matches in multiline mode). -/
def isLineTerm (c : Char) : Bool :=
  c == '\n' || c == '\r' || c == '\u2028' || c == '\u2029'

/-- Models `String.prototype.trim` on a character list. -/
def jsTrim (l : List Char) : List Char :=
  ((l.dropWhile isJsSpace).reverse.dropWhile isJsSpace).reverse

/-- Does `w` occur as a prefix of `s`? -/
def matchesPrefix : List Char → List Char → Bool
  | [], _ => true
  | _ :: _, [] => false
  | a :: w, b :: s => a == b && matchesPrefix w s

/-- Substring occurrence test on lists (JavaScript `String.prototype.includes`). -/
def containsSubL (needle : List Char) : List Char → Bool
  | [] => matchesPrefix needle []
  | l@(_ :: t) => matchesPrefix needle l || containsSubL needle t

/-- JavaScript `hay.includes(needle)`. -/
def containsSub (hay needle : String) : Bool :=
  containsSubL needle.data hay.data

/-- Match a literal token, returning the number of characters consumed. -/
def litP (w : List Char) (s : List Char) : Option Nat :=
  if matchesPrefix w s then some w.length else none

/-- Length of the maximal run of JS whitespace (`\s*`). -/
def wsCount (s : List Char) : Nat :=
  (s.takeWhile isJsSpace).length

/-- Models `\s+`: at least one whitespace character. -/
def ws1 (s : List Char) : Option Nat :=
  let n := wsCount s
  if n = 0 then none else some n

/-- Models `(\w+)`: maximal nonempty run of word characters with its length. -/
def word1 (s : List Char) : Option (List Char × Nat) :=
  let t := s.takeWhile isWordChar
  if t.isEmpty then none else some (t, t.length)

/-- Models `(\w*)`: maximal (possibly empty) run of word characters. -/
def word0 (s : List Char) : List Char × Nat :=
  let t := s.takeWhile isWordChar
  (t, t.length)

/-- Models `([^)]*)`: maximal run of characters other than a closing parenthesis. -/
def spanNotParen (s : List Char) : List Char × Nat :=
  let t := s.takeWhile (fun c => c != ')')
  (t, t.length)

/-- A method record `{name, signature}` produced by the class-method scanner. -/
structure Method where
  name : String
  signature : String
deriving DecidableEq, Repr

/-- An entry of the `exports` array: either a function record
`{type:'function', name, signature, async, isDefault}` (a missing
`isDefault` field is the boolean `false`) or a class record
`{type:'class', name, extends, methods, signature}`. -/
inductive ExportSym where
  | func (name signature : String) (isAsync : Bool) (isDefault : Bool)
  | cls (name : String) (extendsName : Option String) (methods : List Method)
      (signature : String)
deriving DecidableEq, Repr

/-- The `type` field of an exports entry. -/
def ExportSym.type : ExportSym → String
  | .func _ _ _ _ => "function"
  | .cls _ _ _ _ => "class"

/-- Models `${name}(${params.trim()})`: the signature rendering used for functions
and methods. -/
def mkSig (name params : List Char) : String :=
  String.mk name ++ "(" ++ String.mk (jsTrim params) ++ ")"

/-! ### Brace-scoped method scanner (`extractClassMethods`) -/

/-- Models `source.indexOf(c, start)` on a character list (auxiliary scan carrying
the absolute index). -/
def indexOfFromAux (c : Char) : List Char → Nat → Option Nat
  | [], _ => none
  | a :: t, i => if a = c then some i else indexOfFromAux c t (i + 1)

/-- Models `source.indexOf(c, start)`: index of the first occurrence of `c` at or
after `start`, if any. -/
def indexOfFrom (cs : List Char) (c : Char) (start : Nat) : Option Nat :=
  indexOfFromAux c (cs.drop start) start

/-- The brace-depth loop of `extractClassMethods`: starting at absolute
index `i` with current depth `depth`, increment on `{`, decrement on `}`,
return the index where depth returns to zero, or `dflt` (the source
length) when it never does. -/
def braceScanEnd : List Char → Nat → Int → Nat → Nat
  | [], _, _, dflt => dflt
  | c :: rest, i, depth, dflt =>
    if c = '}' then
      if depth - 1 = 0 then i
      else braceScanEnd rest (i + 1) (depth - 1) dflt
    else braceScanEnd rest (i + 1) (if c = '{' then depth + 1 else depth) dflt

/-- One modifier-keyword alternative of the method pattern, with its
mandatory trailing `\s+`:
`(?:async|static|get|set|public|private|protected)\s+`. -/
def matchModifierKw : List (List Char) → List Char → Option Nat
  | [], _ => none
  | kw :: rest, s =>
    match litP kw s with
    | some a =>
      match ws1 (s.drop a) with
      | some b => some (a + b)
      | none => matchModifierKw rest s
    | none => matchModifierKw rest s

/-- The modifier keywords of the method pattern, in alternation order. -/
def modifierKWs : List (List Char) :=
  [['a','s','y','n','c'], ['s','t','a','t','i','c'], ['g','e','t'], ['s','e','t'],
   ['p','u','b','l','i','c'], ['p','r','i','v','a','t','e'],
   ['p','r','o','t','e','c','t','e','d']]

/-- One iteration of the modifier loop of the method pattern. -/
def matchModifier (s : List Char) : Option Nat :=
  matchModifierKw modifierKWs s

/-- Offsets reachable after 0, 1, 2, … iterations of the greedy modifier
loop `(?:…\s+)*`, in increasing order (fuel-bounded; each iteration
consumes at least one character). -/
def modStops : Nat → List Char → Nat → List Nat
  | 0, _, p => [p]
  | fuel + 1, s, p =>
    match matchModifier (s.drop p) with
    | some n => p :: modStops fuel s (p + n)
    | none => [p]

/-- The part of the method pattern after the modifier loop:
`(\w+)\s*\(([^)]*)\)\s*(?::\s*\w+)?\s*\{`, attempted at offset `p` of `s`.
Returns the captured name, the captured parameter text and the offset just
past the opening brace. -/
def methodTail (s : List Char) (p : Nat) : Option (List Char × List Char × Nat) :=
  (word1 (s.drop p)).bind fun nm =>
  let q := p + nm.2 + wsCount (s.drop (p + nm.2))
  (litP ['('] (s.drop q)).bind fun _ =>
  let pr := spanNotParen (s.drop (q + 1))
  (litP [')'] (s.drop (q + 1 + pr.2))).bind fun _ =>
  let r0 := q + 1 + pr.2 + 1
  let r1 := r0 + wsCount (s.drop r0)
  let r2 :=
    match litP [':'] (s.drop r1) with
    | some _ =>
      let r := r1 + 1 + wsCount (s.drop (r1 + 1))
      match word1 (s.drop r) with
      | some w => r + w.2
      | none => r1
    | none => r1
  let r3 := r2 + wsCount (s.drop r2)
  (litP ['{'] (s.drop r3)).map fun _ => (nm.1, pr.1, r3 + 1)

/-- Try the method-pattern tail at each modifier-loop stop, longest
(most iterations) first, exactly as the backtracking regex engine does. -/
def methodFromStops (s : List Char) : List Nat → Option (List Char × List Char × Nat)
  | [] => none
  | p :: rest =>
    match methodTail s p with
    | some r => some r
    | none => methodFromStops s rest

/-- Attempt the full method pattern
`(?:(?:async|static|get|set|public|private|protected)\s+)*(\w+)\s*\(([^)]*)\)\s*(?::\s*\w+)?\s*\{`
at the start of `s`. -/
def matchMethod (s : List Char) : Option (List Char × List Char × Nat) :=
  methodFromStops s (modStops s.length s 0).reverse

/-- Control-flow keywords whose matches the method scanner rejects. -/
def controlKWs : List String :=
  ["if", "for", "while", "switch", "catch"]

/-- The `methodRegex.exec` loop over a class body: find matches from left
to right, continuing after each match, skipping matches whose identifier is
a control-flow keyword. -/
def scanMethods : Nat → List Char → List Method
  | 0, _ => []
  | fuel + 1, s =>
    match matchMethod s with
    | some (nm, pr, n) =>
      let rest := scanMethods fuel (s.drop n)
      if String.mk nm ∈ controlKWs then rest
      else { name := String.mk nm, signature := mkSig nm pr } :: rest
    | none =>
      match s with
      | [] => []
      | _ :: t => scanMethods fuel t

/-- Models `extractClassMethods(source, classStart)` on a character list: locate
the first `{` at or after `classStart`; if none, return `[]`; otherwise
find the class body end by brace-depth scanning (falling back to the end
of the source) and run the method pattern over the body slice. -/
def extractClassMethodsL (cs : List Char) (classStart : Nat) : List Method :=
  match indexOfFrom cs '{' classStart with
  | none => []
  | some braceStart =>
    let classBodyEnd := braceScanEnd (cs.drop braceStart) braceStart 0 cs.length
    let classBody := (cs.take classBodyEnd).drop (braceStart + 1)
    scanMethods classBody.length classBody

/-- Models `extractClassMethods` on a string. -/
def extractClassMethods (source : String) (classStart : Nat) : List Method :=
  extractClassMethodsL source.data classStart

/-! ### JS/TS export extraction (`extractJSExports`) -/

/-- Literal token lists used by the export patterns. -/
def exportL : List Char := ['e','x','p','o','r','t']

def asyncL : List Char := ['a','s','y','n','c']

def functionL : List Char := ['f','u','n','c','t','i','o','n']

def constL : List Char := ['c','o','n','s','t']

def classL : List Char := ['c','l','a','s','s']

def defaultL : List Char := ['d','e','f','a','u','l','t']

def extendsL : List Char := ['e','x','t','e','n','d','s']

/-- Models `export\s+(?:async\s+)?function\s+(\w+)\s*\(([^)]*)\)` at the start of
`s`; returns name capture, parameter capture and match length.  The
optional `(?:async\s+)?` group is deterministic here: if `async` is
present but not followed by whitespace-then-`function`, the skipped
alternative fails as well, since the next character is `a`, not `f`. -/
def matchNamedFunc (s : List Char) : Option (List Char × List Char × Nat) :=
  (litP exportL s).bind fun a =>
  (ws1 (s.drop a)).bind fun b =>
  let p0 := a + b
  let p :=
    match litP asyncL (s.drop p0) with
    | some c =>
      match ws1 (s.drop (p0 + c)) with
      | some d => p0 + c + d
      | none => p0
    | none => p0
  (litP functionL (s.drop p)).bind fun e =>
  (ws1 (s.drop (p + e))).bind fun f =>
  (word1 (s.drop (p + e + f))).bind fun nm =>
  let q := p + e + f + nm.2 + wsCount (s.drop (p + e + f + nm.2))
  (litP ['('] (s.drop q)).bind fun _ =>
  let pr := spanNotParen (s.drop (q + 1))
  (litP [')'] (s.drop (q + 1 + pr.2))).map fun _ =>
  (nm.1, pr.1, q + 1 + pr.2 + 1)

/-- The `namedFuncRegex.exec` loop: `async` is recorded when the marker
occurs in `source.slice(match.index, match.index + 25)`. -/
def scanNamedFuncs : Nat → List Char → List ExportSym
  | 0, _ => []
  | fuel + 1, s =>
    match matchNamedFunc s with
    | some (nm, pr, n) =>
      .func (String.mk nm) (mkSig nm pr) (containsSubL asyncL (s.take 25)) false
        :: scanNamedFuncs fuel (s.drop n)
    | none =>
      match s with
      | [] => []
      | _ :: t => scanNamedFuncs fuel t

/-- Models `export\s+const\s+(\w+)\s*=\s*(?:async\s*)?\(([^)]*)\)\s*=>` at the
start of `s`. -/
def matchArrowFunc (s : List Char) : Option (List Char × List Char × Nat) :=
  (litP exportL s).bind fun a =>
  (ws1 (s.drop a)).bind fun b =>
  (litP constL (s.drop (a + b))).bind fun c =>
  (ws1 (s.drop (a + b + c))).bind fun d =>
  (word1 (s.drop (a + b + c + d))).bind fun nm =>
  let p0 := a + b + c + d + nm.2 + wsCount (s.drop (a + b + c + d + nm.2))
  (litP ['='] (s.drop p0)).bind fun _ =>
  let p1 := p0 + 1 + wsCount (s.drop (p0 + 1))
  let p :=
    match litP asyncL (s.drop p1) with
    | some c1 => p1 + c1 + wsCount (s.drop (p1 + c1))
    | none => p1
  (litP ['('] (s.drop p)).bind fun _ =>
  let pr := spanNotParen (s.drop (p + 1))
  (litP [')'] (s.drop (p + 1 + pr.2))).bind fun _ =>
  let q := p + 1 + pr.2 + 1
  let q1 := q + wsCount (s.drop q)
  (litP ['=', '>'] (s.drop q1)).map fun _ =>
  (nm.1, pr.1, q1 + 2)

/-- The `arrowFuncRegex.exec` loop (async lookahead window of 45). -/
def scanArrowFuncs : Nat → List Char → List ExportSym
  | 0, _ => []
  | fuel + 1, s =>
    match matchArrowFunc s with
    | some (nm, pr, n) =>
      .func (String.mk nm) (mkSig nm pr) (containsSubL asyncL (s.take 45)) false
        :: scanArrowFuncs fuel (s.drop n)
    | none =>
      match s with
      | [] => []
      | _ :: t => scanArrowFuncs fuel t

/-- Models `export\s+(?:default\s+)?class\s+(\w+)(?:\s+extends\s+(\w+))?` at the
start of `s`; returns the class name, the optional superclass capture and
the match length. -/
def matchClassDecl (s : List Char) : Option (List Char × Option (List Char) × Nat) :=
  (litP exportL s).bind fun a =>
  (ws1 (s.drop a)).bind fun b =>
  let p0 := a + b
  let p :=
    match litP defaultL (s.drop p0) with
    | some c =>
      match ws1 (s.drop (p0 + c)) with
      | some d => p0 + c + d
      | none => p0
    | none => p0
  (litP classL (s.drop p)).bind fun e =>
  (ws1 (s.drop (p + e))).bind fun f =>
  (word1 (s.drop (p + e + f))).map fun nm =>
  let q := p + e + f + nm.2
  let extPart : Option (List Char × Nat) :=
    (ws1 (s.drop q)).bind fun g =>
    (litP extendsL (s.drop (q + g))).bind fun h =>
    (ws1 (s.drop (q + g + h))).bind fun i =>
    (word1 (s.drop (q + g + h + i))).map fun bm =>
    (bm.1, g + h + i + bm.2)
  match extPart with
  | some (base, k) => (nm.1, some base, q + k)
  | none => (nm.1, none, q)

/-- Models `class ${name}${base ? ` extends ${base}` : ''}`. -/
def classSig (name : List Char) (base : Option (List Char)) : String :=
  "class " ++ String.mk name ++
    (match base with
     | some b => " extends " ++ String.mk b
     | none => "")

/-- The `classRegex.exec` loop, carrying the absolute scan position so
that `extractClassMethods(source, match.index)` can be invoked for each
match. -/
def scanClassDecls (source : List Char) : Nat → Nat → List ExportSym
  | 0, _ => []
  | fuel + 1, p =>
    match matchClassDecl (source.drop p) with
    | some (nm, base, n) =>
      .cls (String.mk nm) (base.map String.mk) (extractClassMethodsL source p)
          (classSig nm base)
        :: scanClassDecls source fuel (p + n)
    | none =>
      if p < source.length then scanClassDecls source fuel (p + 1) else []

/-- Models `export\s+default\s+(?:async\s+)?function\s*(\w*)\s*\(([^)]*)\)` at the
start of `s`; the name capture may be empty. -/
def matchDefaultFunc (s : List Char) : Option (List Char × List Char × Nat) :=
  (litP exportL s).bind fun a =>
  (ws1 (s.drop a)).bind fun b =>
  (litP defaultL (s.drop (a + b))).bind fun c =>
  (ws1 (s.drop (a + b + c))).bind fun d =>
  let p0 := a + b + c + d
  let p :=
    match litP asyncL (s.drop p0) with
    | some e =>
      match ws1 (s.drop (p0 + e)) with
      | some f => p0 + e + f
      | none => p0
    | none => p0
  (litP functionL (s.drop p)).bind fun g =>
  let q0 := p + g + wsCount (s.drop (p + g))
  let nm := word0 (s.drop q0)
  let q := q0 + nm.2 + wsCount (s.drop (q0 + nm.2))
  (litP ['('] (s.drop q)).bind fun _ =>
  let pr := spanNotParen (s.drop (q + 1))
  (litP [')'] (s.drop (q + 1 + pr.2))).map fun _ =>
  (nm.1, pr.1, q + 1 + pr.2 + 1)

/-- Models `match[1] || 'default'`: the empty name capture is replaced by the
sentinel. -/
def defaultName (nm : List Char) : List Char :=
  if nm.isEmpty then defaultL else nm

/-- The `defaultFuncRegex.exec` loop (async lookahead window of 35,
`isDefault: true`). -/
def scanDefaultFuncs : Nat → List Char → List ExportSym
  | 0, _ => []
  | fuel + 1, s =>
    match matchDefaultFunc s with
    | some (nm, pr, n) =>
      .func (String.mk (defaultName nm)) (mkSig (defaultName nm) pr)
          (containsSubL asyncL (s.take 35)) true
        :: scanDefaultFuncs fuel (s.drop n)
    | none =>
      match s with
      | [] => []
      | _ :: t => scanDefaultFuncs fuel t

/-- Models `extractJSExports(source)`: the four pattern passes, concatenated in
program order (named functions, arrow functions, classes, default
functions). -/
def extractJSExports (source : String) : List ExportSym :=
  let cs := source.data
  scanNamedFuncs cs.length cs ++ scanArrowFuncs cs.length cs ++
    scanClassDecls cs cs.length 0 ++ scanDefaultFuncs cs.length cs

/-! ### Python export extraction (`extractPythonExports`)

Both Python patterns carry the `m` flag and a `^` anchor: a match can only
start at position 0 or just after a line terminator.  The scan drivers
track that with a boolean flag. -/

def defL : List Char := ['d','e','f']

/-- Models `^(?:async\s+)?def\s+(\w+)\s*\(([^)]*)\)` attempted at a line start.
Returns name capture, parameter capture and match length. -/
def matchPyFunc (s : List Char) : Option (List Char × List Char × Nat) :=
  let p :=
    match litP asyncL s with
    | some c =>
      match ws1 (s.drop c) with
      | some d => c + d
      | none => 0
    | none => 0
  (litP defL (s.drop p)).bind fun e =>
  (ws1 (s.drop (p + e))).bind fun f =>
  (word1 (s.drop (p + e + f))).bind fun nm =>
  let q := p + e + f + nm.2 + wsCount (s.drop (p + e + f + nm.2))
  (litP ['('] (s.drop q)).bind fun _ =>
  let pr := spanNotParen (s.drop (q + 1))
  (litP [')'] (s.drop (q + 1 + pr.2))).map fun _ =>
  (nm.1, pr.1, q + 1 + pr.2 + 1)

/-- Is the character just before the next scan position a line terminator?
`l` is the nonempty span just consumed. -/
def endsWithLineTerm (l : List Char) : Bool :=
  match l.getLast? with
  | some c => isLineTerm c
  | none => false

/-- The Python `funcRegex.exec` loop.  A match whose name starts with an
underscore is skipped (`continue`) but still advances `lastIndex`; the
`async` field is `match[0].trim().startsWith('async')`. -/
def scanPyFuncs : Nat → List Char → Bool → List ExportSym
  | 0, _, _ => []
  | fuel + 1, s, atLS =>
    match s with
    | [] => []
    | c :: t =>
      match (if atLS then matchPyFunc s else none) with
      | some (nm, pr, n) =>
        let rest := scanPyFuncs fuel (s.drop n) (endsWithLineTerm (s.take n))
        if matchesPrefix ['_'] nm then rest
        else
          .func (String.mk nm) (mkSig nm pr)
              (matchesPrefix asyncL (jsTrim (s.take n))) false
            :: rest
      | none => scanPyFuncs fuel t (isLineTerm c)

/-- Models `^class\s+(\w+)(?:\(([^)]*)\))?:` attempted at a line start.  Returns
the class name, the (possibly empty) base-list capture when the
parenthesized group matched, and the match length. -/
def matchPyClass (s : List Char) : Option (List Char × Option (List Char) × Nat) :=
  (litP classL s).bind fun a =>
  (ws1 (s.drop a)).bind fun b =>
  (word1 (s.drop (a + b))).bind fun nm =>
  let q := a + b + nm.2
  match litP ['('] (s.drop q) with
  | some _ =>
    let pr := spanNotParen (s.drop (q + 1))
    (litP [')'] (s.drop (q + 1 + pr.2))).bind fun _ =>
    (litP [':'] (s.drop (q + 1 + pr.2 + 1))).map fun _ =>
    (nm.1, some pr.1, q + 1 + pr.2 + 1 + 1)
  | none =>
    (litP [':'] (s.drop q)).map fun _ => (nm.1, none, q + 1)

/-- Models `match[2] || null` and the class signature: an absent or empty base
capture is falsy in JavaScript. -/
def pyBase (b : Option (List Char)) : Option String :=
  match b with
  | some l => if l.isEmpty then none else some (String.mk l)
  | none => none

/-- Models `class ${match[1]}${match[2] ? `(${match[2]})` : ''}`. -/
def pyClassSig (nm : List Char) (b : Option (List Char)) : String :=
  "class " ++ String.mk nm ++
    (match b with
     | some l => if l.isEmpty then "" else "(" ++ String.mk l ++ ")"
     | none => "")

/-- The Python `classRegex.exec` loop (`methods` is always empty). -/
def scanPyClasses : Nat → List Char → Bool → List ExportSym
  | 0, _, _ => []
  | fuel + 1, s, atLS =>
    match s with
    | [] => []
    | c :: t =>
      match (if atLS then matchPyClass s else none) with
      | some (nm, b, n) =>
        .cls (String.mk nm) (pyBase b) [] (pyClassSig nm b)
          :: scanPyClasses fuel (s.drop n) (endsWithLineTerm (s.take n))
      | none => scanPyClasses fuel t (isLineTerm c)

/-- Models `extractPythonExports(source)`: the function pass followed by the
class pass. -/
def extractPythonExports (source : String) : List ExportSym :=
  let cs := source.data
  scanPyFuncs cs.length cs true ++ scanPyClasses cs.length cs true

/-! ### Import extraction -/

def importL : List Char := ['i','m','p','o','r','t']

def fromL : List Char := ['f','r','o','m']

def asL : List Char := ['a','s']

/-- Models `\{[^}]*\}`: a braced binding list. -/
def braceBinding (s : List Char) : Option Nat :=
  (litP ['{'] s).bind fun _ =>
  let t := (s.drop 1).takeWhile (fun c => c != '}')
  (litP ['}'] (s.drop (1 + t.length))).map fun _ => 1 + t.length + 1

/-- Models `\*\s+as\s+\w+`: a namespace binding. -/
def starAsBinding (s : List Char) : Option Nat :=
  (litP ['*'] s).bind fun _ =>
  (ws1 (s.drop 1)).bind fun a =>
  (litP asL (s.drop (1 + a))).bind fun _ =>
  (ws1 (s.drop (1 + a + 2))).bind fun b =>
  (word1 (s.drop (1 + a + 2 + b))).map fun w => 1 + a + 2 + b + w.2

/-- The first binding alternative `(?:\{[^}]*\}|\*\s+as\s+\w+|\w+)`; the
alternatives start with distinct characters, so at most one applies. -/
def bindingFirst (s : List Char) : Option Nat :=
  match braceBinding s with
  | some n => some n
  | none =>
    match starAsBinding s with
    | some n => some n
    | none => (word1 s).map fun w => w.2

/-- One iteration of the comma loop `(?:\s*,\s*(?:\{[^}]*\}|\w+))`. -/
def commaIter (s : List Char) : Option Nat :=
  let a := wsCount s
  (litP [','] (s.drop a)).bind fun _ =>
  let b := a + 1 + wsCount (s.drop (a + 1))
  match braceBinding (s.drop b) with
  | some n => some (b + n)
  | none => (word1 (s.drop b)).map fun w => b + w.2

/-- Offsets after 0, 1, 2, … iterations of the greedy comma loop. -/
def commaStops : Nat → List Char → Nat → List Nat
  | 0, _, p => [p]
  | fuel + 1, s, p =>
    match commaIter (s.drop p) with
    | some n => p :: commaStops fuel s (p + n)
    | none => [p]

/-- Models `['"]([^'"]+)['"]`: a quoted module specifier (the opening and closing
quote characters are matched independently by the character class). -/
def quotedModule (s : List Char) : Option (List Char × Nat) :=
  match s with
  | [] => none
  | c :: rest =>
    if c = '\'' || c = '"' then
      let m := rest.takeWhile (fun d => !(d == '\'' || d == '"'))
      if m.isEmpty then none
      else
        match rest.drop m.length with
        | d :: _ =>
          if d = '\'' || d = '"' then some (m, 1 + m.length + 1) else none
        | [] => none
    else none

/-- Models `\s+from\s+['"]([^'"]+)['"]`: the tail of the bound import form. -/
def fromQuoted (s : List Char) : Option (List Char × Nat) :=
  (ws1 s).bind fun a =>
  (litP fromL (s.drop a)).bind fun _ =>
  (ws1 (s.drop (a + 4))).bind fun b =>
  (quotedModule (s.drop (a + 4 + b))).map fun m => (m.1, a + 4 + b + m.2)

/-- Try the `from`-tail at each comma-loop stop, longest first (the greedy
loop backtracks one iteration at a time). -/
def fromAtStops (s : List Char) : List Nat → Option (List Char × Nat)
  | [] => none
  | p :: rest =>
    match fromQuoted (s.drop p) with
    | some (m, n) => some (m, p + n)
    | none => fromAtStops s rest

/-- The JS import pattern
`import\s+(?:(?:\{[^}]*\}|\*\s+as\s+\w+|\w+)(?:\s*,\s*(?:\{[^}]*\}|\w+))*\s+from\s+)?['"]([^'"]+)['"]`
at the start of `s`.  If the optional binding group succeeds, its first
binding consumed a non-quote character, so the group-skipping alternative
cannot also succeed; if the binding group fails on every iteration count,
the engine falls back to the bare form. -/
def matchJSImport (s : List Char) : Option (List Char × Nat) :=
  (litP importL s).bind fun a =>
  (ws1 (s.drop a)).bind fun b =>
  let p := a + b
  let grouped : Option (List Char × Nat) :=
    (bindingFirst (s.drop p)).bind fun g =>
      (fromAtStops (s.drop (p + g))
          (commaStops s.length (s.drop (p + g)) 0).reverse).map
        fun m => (m.1, p + g + m.2)
  match grouped with
  | some m => some m
  | none => (quotedModule (s.drop p)).map fun m => (m.1, p + m.2)

/-- The `importRegex.exec` loop of `extractJSImports`. -/
def scanJSImports : Nat → List Char → List String
  | 0, _ => []
  | fuel + 1, s =>
    match matchJSImport s with
    | some (m, n) => String.mk m :: scanJSImports fuel (s.drop n)
    | none =>
      match s with
      | [] => []
      | _ :: t => scanJSImports fuel t

/-- Models `extractJSImports(source)`. -/
def extractJSImports (source : String) : List String :=
  scanJSImports source.data.length source.data

/-- Models `(\S+)`: maximal nonempty run of non-whitespace characters. -/
def nonWs1 (s : List Char) : Option (List Char × Nat) :=
  let t := s.takeWhile (fun c => !isJsSpace c)
  if t.isEmpty then none else some (t, t.length)

/-- Models `from\s+(\S+)\s+import`: the first alternative of the Python import
pattern. -/
def matchFromImport (s : List Char) : Option (List Char × Nat) :=
  (litP fromL s).bind fun _ =>
  (ws1 (s.drop 4)).bind fun a =>
  (nonWs1 (s.drop (4 + a))).bind fun m =>
  (ws1 (s.drop (4 + a + m.2))).bind fun b =>
  (litP importL (s.drop (4 + a + m.2 + b))).map fun _ =>
  (m.1, 4 + a + m.2 + b + 6)

/-- Models `import\s+(\S+)`: the second alternative. -/
def matchPlainImport (s : List Char) : Option (List Char × Nat) :=
  (litP importL s).bind fun _ =>
  (ws1 (s.drop 6)).bind fun a =>
  (nonWs1 (s.drop (6 + a))).map fun m => (m.1, 6 + a + m.2)

/-- Models `^(?:from\s+(\S+)\s+import|import\s+(\S+))` at a line start;
`match[1] || match[2]` is the module capture of whichever alternative
matched. -/
def matchPyImport (s : List Char) : Option (List Char × Nat) :=
  match matchFromImport s with
  | some m => some m
  | none => matchPlainImport s

/-- The Python `importRegex.exec` loop (line-anchored). -/
def scanPyImports : Nat → List Char → Bool → List String
  | 0, _, _ => []
  | fuel + 1, s, atLS =>
    match s with
    | [] => []
    | c :: t =>
      match (if atLS then matchPyImport s else none) with
      | some (m, n) =>
        String.mk m :: scanPyImports fuel (s.drop n) (endsWithLineTerm (s.take n))
      | none => scanPyImports fuel t (isLineTerm c)

/-- Models `extractPythonImports(source)`. -/
def extractPythonImports (source : String) : List String :=
  scanPyImports source.data.length source.data true

/-! ### Path handling: Node's POSIX `path.dirname` and `path.extname`

The analyzer calls these library functions; their upstream algorithms are
embedded directly (reverse scan over the characters with the same state
variables). -/

/-- The reverse scan of `path.dirname` over positions `len-1 … 1` (the
input is the enumerated character list reversed, first component the
index): find the index of the rightmost `/` that has a non-slash character
somewhere to its right. -/
def dirnameFindEnd : List (Nat × Char) → Bool → Option Nat
  | [], _ => none
  | (i, c) :: rest, matchedSlash =>
    if c = '/' then
      if matchedSlash then dirnameFindEnd rest matchedSlash else some i
    else dirnameFindEnd rest false

/-- Node `path.posix.dirname`. -/
def dirname (p : String) : String :=
  let cs := p.data
  if cs.isEmpty then "." else
  let hasRoot := cs.head? = some '/'
  match dirnameFindEnd (cs.enum.drop 1).reverse true with
  | none => if hasRoot then "/" else "."
  | some e => if hasRoot ∧ e = 1 then "//" else String.mk (cs.take e)

/-- The reverse scan of `path.extname`, carrying Node's state variables
`(matchedSlash, end, startDot, preDotState)`; returns
`(end, startDot, preDotState, startPart)`. -/
def extnameScan : List (Nat × Char) → Bool → Option Nat → Option Nat → Int →
    Option Nat × Option Nat × Int × Nat
  | [], _, e, sd, pds => (e, sd, pds, 0)
  | (i, c) :: rest, ms, e, sd, pds =>
    if c = '/' then
      if ms then extnameScan rest ms e sd pds
      else (e, sd, pds, i + 1)
    else
      let ms1 := if e = none then false else ms
      let e1 := if e = none then some (i + 1) else e
      if c = '.' then
        match sd with
        | none => extnameScan rest ms1 e1 (some i) pds
        | some _ => extnameScan rest ms1 e1 sd (if pds ≠ 1 then 1 else pds)
      else
        match sd with
        | none => extnameScan rest ms1 e1 sd pds
        | some _ => extnameScan rest ms1 e1 sd (-1)

/-- Node `path.posix.extname`: the substring from the last `.` of the
final path component to its end, or `""` when that dot is the component's
first character, the component has no dot, or the component is `..`. -/
def extname (p : String) : String :=
  let r := extnameScan p.data.enum.reverse true none none 0
  match r.1, r.2.1 with
  | some en, some d =>
    if r.2.2.1 = 0 ∨ (r.2.2.1 = 1 ∧ (d : Int) = (en : Int) - 1 ∧ d = r.2.2.2 + 1)
    then "" else String.mk ((p.data.take en).drop d)
  | _, _ => ""

/-! ### Language detection -/

/-- ASCII lower-casing (the behaviour of `String.prototype.toLowerCase`
on the ASCII range, which is all the extension table contains). -/
def asciiLower (s : String) : String :=
  String.mk (s.data.map Char.toLower)

/-- The `LANGUAGE_MAP` table. -/
def LANGUAGE_MAP : List (String × String) :=
  [(".js", "javascript"), (".jsx", "javascript"), (".mjs", "javascript"),
   (".cjs", "javascript"), (".ts", "typescript"), (".tsx", "typescript"),
   (".mts", "typescript"), (".py", "python")]

/-- Models `detectLanguage(filePath)`: `LANGUAGE_MAP[extname(filePath).toLowerCase()] || null`. -/
def detectLanguage (filePath : String) : Option String :=
  LANGUAGE_MAP.lookup (asciiLower (extname filePath))

/-! ### Framework detection -/

/-- A parsed `package.json` (the result of a successful `JSON.parse`):
the three fields the analyzer reads, each a flat string-to-string object
represented as an association list in property order (`|| {}` makes a
missing field the empty object). -/
structure Pkg where
  dependencies : List (String × String)
  devDependencies : List (String × String)
  scripts : List (String × String)

/-- Property assignment on a JavaScript object: an existing key keeps its
position and takes the new value, a new key is appended. -/
def upsert (m : List (String × String)) (k v : String) : List (String × String) :=
  if m.any (fun kv => kv.1 == k) then
    m.map (fun kv => if kv.1 == k then (k, v) else kv)
  else m ++ [(k, v)]

/-- Object spread `{...a, ...b, ...c}`: assign every property in order. -/
def spreadAll (ms : List (List (String × String))) : List (String × String) :=
  ms.foldl (fun acc m => m.foldl (fun acc2 kv => upsert acc2 kv.1 kv.2) acc) []

/-- Models `allDeps = {...dependencies, ...devDependencies, ...scripts}`. -/
def allDeps (p : Pkg) : List (String × String) :=
  spreadAll [p.dependencies, p.devDependencies, p.scripts]

/-- One hexadecimal digit (lowercase). -/
def hexDigit (n : Nat) : Char :=
  if n < 10 then Char.ofNat (48 + n) else Char.ofNat (87 + n)

/-- Four-digit hexadecimal rendering used by `\uXXXX` escapes. -/
def hex4 (n : Nat) : String :=
  String.mk [hexDigit (n / 4096 % 16), hexDigit (n / 256 % 16),
             hexDigit (n / 16 % 16), hexDigit (n % 16)]

/-- JSON string escaping as performed by `JSON.stringify`. -/
def jsonEscapeChar (c : Char) : String :=
  if c = '"' then "\\\"" else if c = '\\' then "\\\\"
  else if c = '\x08' then "\\b" else if c = '\x0c' then "\\f"
  else if c = '\n' then "\\n" else if c = '\r' then "\\r"
  else if c = '\t' then "\\t"
  else if c.toNat < 32 then "\\u" ++ hex4 c.toNat
  else String.mk [c]

/-- A JSON string literal. -/
def jsonQuote (s : String) : String :=
  "\"" ++ String.join (s.data.map jsonEscapeChar) ++ "\""

/-- Models `JSON.stringify` of a flat string-to-string object. -/
def jsonStringifyFlat (entries : List (String × String)) : String :=
  "\x7b" ++
    String.intercalate "," (entries.map fun kv => jsonQuote kv.1 ++ ":" ++ jsonQuote kv.2) ++
  "\x7d"

/-- Models `depsStr = JSON.stringify(allDeps).toLowerCase()`. -/
def depsStr (p : Pkg) : String :=
  asciiLower (jsonStringifyFlat (allDeps p))

/-- The dependency-string decision of `detectFramework`: substring tests
for `vitest`, `jest`, `mocha`, in that order. -/
def frameworkFromPkg (p : Pkg) : Option String :=
  if containsSub (depsStr p) "vitest" then some "vitest"
  else if containsSub (depsStr p) "jest" then some "jest"
  else if containsSub (depsStr p) "mocha" then some "mocha"
  else none

/-- The filesystem, as the analyzer queries it.  `pkg d` models reading
and `JSON.parse`-ing `join(d, 'package.json')` (`none` when the file is
missing, unreadable, or unparseable — all recovered by the same `catch`);
`pyproject d` models reading `join(d, 'pyproject.toml')`; `fileExists d f`
models `access(join(d, f))` succeeding; `readFile p` models reading a
source file at the full path `p`. -/
structure FS where
  readFile : String → Option String
  pkg : String → Option Pkg
  pyproject : String → Option String
  fileExists : String → String → Bool

/-- Models `FRAMEWORK_CONFIG_FILES`, in object-literal insertion order (the order
`Object.entries` iterates). -/
def FRAMEWORK_CONFIG_FILES : List (String × List String) :=
  [("jest", ["jest.config.js", "jest.config.ts", "jest.config.mjs", "jest.config.cjs"]),
   ("vitest", ["vitest.config.js", "vitest.config.ts", "vitest.config.mts"]),
   ("mocha", [".mocharc.js", ".mocharc.cjs", ".mocharc.yaml", ".mocharc.yml", ".mocharc.json"]),
   ("pytest", ["pytest.ini", "conftest.py"])]

/-- The `pyproject.toml` check: pytest when the content contains
`[tool.pytest` or `pytest`. -/
def pyCheck (fs : FS) (d : String) : Option String :=
  match fs.pyproject d with
  | none => none
  | some content =>
    if containsSub content "[tool.pytest" || containsSub content "pytest"
    then some "pytest" else none

/-- The nested config-file loop: for each framework in table order, return
it as soon as one of its config files exists in `d`. -/
def configCheckList (fs : FS) (d : String) : List (String × List String) → Option String
  | [] => none
  | (fw, files) :: rest =>
    if files.any (fun f => fs.fileExists d f) then some fw
    else configCheckList fs d rest

/-- The config-file check over `FRAMEWORK_CONFIG_FILES`. -/
def configCheck (fs : FS) (d : String) : Option String :=
  configCheckList fs d FRAMEWORK_CONFIG_FILES

/-- The body of the per-directory iteration of `detectFramework`:
package-manifest check, then `pyproject.toml` check, then config files. -/
def dirStep (fs : FS) (d : String) : Option String :=
  match (fs.pkg d).bind frameworkFromPkg with
  | some fw => some fw
  | none =>
    match pyCheck fs d with
    | some fw => some fw
    | none => configCheck fs d

/-- The ancestor walk: up to `n` parents, stopping early when
`dirname(current) == current`. -/
def parentDirs : Nat → String → List String
  | 0, _ => []
  | n + 1, current =>
    if dirname current = current then []
    else dirname current :: parentDirs n (dirname current)

/-- The search list of `detectFramework`: the containing directory, then
up to 4 ancestors. -/
def searchDirs (filePath : String) : List String :=
  dirname filePath :: parentDirs 4 (dirname filePath)

/-- The outer loop of `detectFramework`: first directory that yields a
framework wins. -/
def detectLoop (fs : FS) : List String → Option String
  | [] => none
  | d :: rest =>
    match dirStep fs d with
    | some fw => some fw
    | none => detectLoop fs rest

/-- Models `detectFramework(filePath)` over the filesystem model. -/
def detectFramework (fs : FS) (filePath : String) : Option String :=
  detectLoop fs (searchDirs filePath)

/-! ### Orchestrator (`analyzeFile`) -/

/-- The two user-visible failures of `analyzeFile`. -/
inductive AnalyzeError where
  | unsupportedFileType (ext : String)
  | sourceUnreadable
deriving DecidableEq, Repr

/-- The analysis record returned by `analyzeFile`. -/
structure FileAnalysis where
  filePath : String
  language : String
  framework : String
  source : String
  exports : List ExportSym
  imports : List String
  lineCount : Nat
  functionCount : Nat
  classCount : Nat
deriving DecidableEq, Repr

/-- Models `analyzeFile(filePath)`: classify the language (failing with
`Unsupported file type: ${extname(filePath)}` before any read), read the
source (a failed read is fatal), detect the framework, dispatch to the
language's extractors and assemble the record; an unknown framework
defaults to `pytest` for Python and `jest` otherwise. -/
def analyzeFile (fs : FS) (filePath : String) : Except AnalyzeError FileAnalysis :=
  match detectLanguage filePath with
  | none => .error (.unsupportedFileType (extname filePath))
  | some language =>
    match fs.readFile filePath with
    | none => .error .sourceUnreadable
    | some source =>
      let framework := detectFramework fs filePath
      let exports :=
        if language = "javascript" ∨ language = "typescript" then extractJSExports source
        else if language = "python" then extractPythonExports source
        else []
      let imports :=
        if language = "javascript" ∨ language = "typescript" then extractJSImports source
        else if language = "python" then extractPythonImports source
        else []
      .ok
        { filePath := filePath
          language := language
          framework := framework.getD (if language = "python" then "pytest" else "jest")
          source := source
          exports := exports
          imports := imports
          lineCount := (source.splitOn "\n").length
          functionCount := (exports.filter (fun e => e.type == "function")).length
          classCount := (exports.filter (fun e => e.type == "class")).length }

/-! ### Declarative quantities and concrete fixtures used by the theorems -/

/-- Net brace contribution of one character. -/
def braceDelta (c : Char) : Int :=
  if c = '{' then 1 else if c = '}' then -1 else 0

/-- Number of opening minus number of closing braces. -/
def braceBalance (l : List Char) : Int :=
  (l.count '{' : Int) - (l.count '}' : Int)

/-- A class with three genuine methods and an `if` control statement that
textually matches the method pattern. -/
def calcClassSource : String :=
  "export class Calc \x7b\n  add(a, b) \x7b\n    if (a) \x7b return a; \x7d\n    return b;\n  \x7d\n  sub(a, b) \x7b return a - b; \x7d\n  mul(a, b) \x7b return a * b; \x7d\n\x7d"

/-- A manifest listing both `vitest` and `jest` in `devDependencies`. -/
def vitestJestPkg : Pkg :=
  { dependencies := []
    devDependencies := [("vitest", "^1.0.0"), ("jest", "^29.0.0")]
    scripts := [] }

/-- A filesystem with no manifests, project files or config files. -/
def fsEmpty : FS :=
  { readFile := fun _ => none
    pkg := fun _ => none
    pyproject := fun _ => none
    fileExists := fun _ _ => false }

/-- A filesystem whose every path reads as a small JS source file. -/
def fsReadable : FS :=
  { readFile := fun _ => some "export function f(x) \x7b\x7d"
    pkg := fun _ => none
    pyproject := fun _ => none
    fileExists := fun _ _ => false }

/-- A filesystem in which every directory contains both a jest and a
vitest config file and nothing else. -/
def fsTwoConfigs : FS :=
  { readFile := fun _ => none
    pkg := fun _ => none
    pyproject := fun _ => none
    fileExists := fun _ f => f == "jest.config.js" || f == "vitest.config.ts" }

/-- A filesystem in which every directory holds the vitest-and-jest
manifest. -/
def fsVitestJest : FS :=
  { readFile := fun _ => none
    pkg := fun _ => some vitestJestPkg
    pyproject := fun _ => none
    fileExists := fun _ _ => false }

/-! ## Helper lemmas -/

theorem braceBalance_cons (c : Char) (l : List Char) :
    braceBalance (c :: l) = braceDelta c + braceBalance l := by
  by_cases h1 : c = '{'
  · subst h1; simp [braceBalance, braceDelta, List.count_cons]; omega
  · by_cases h2 : c = '}'
    · subst h2; simp [braceBalance, braceDelta, List.count_cons]; omega
    · simp [braceBalance, braceDelta, List.count_cons, h1, h2,
        Ne.symm h1, Ne.symm h2]

theorem braceBalance_take_succ (t : List Char) (k : Nat) (a : Char)
    (h : t[k]? = some a) :
    braceBalance (t.take (k + 1)) = braceBalance (t.take k) + braceDelta a := by
  have ht : t.take (k + 1) = t.take k ++ [a] := by
    rw [List.take_succ, h]; rfl
  rw [ht]
  by_cases h1 : a = '{'
  · subst h1; simp [braceBalance, braceDelta, List.count_append]; omega
  · by_cases h2 : a = '}'
    · subst h2; simp [braceBalance, braceDelta, List.count_append]; omega
    · simp [braceBalance, braceDelta, List.count_append, h1, h2,
        Ne.symm h1, Ne.symm h2]

/-- The break condition of the brace loop, shifted across a cons cell. -/
theorem braceCond_shift (c : Char) (rest : List Char) (d : Int) (k : Nat) :
    ((c :: rest)[k + 1]? = some '}' ∧
        d + braceBalance ((c :: rest).take (k + 1 + 1)) = 0) ↔
      (rest[k]? = some '}' ∧
        (d + braceDelta c) + braceBalance (rest.take (k + 1)) = 0) := by
  rw [List.getElem?_cons_succ, List.take_succ_cons, braceBalance_cons]
  constructor <;> rintro ⟨ha, hb⟩ <;> exact ⟨ha, by omega⟩

/-- Characterization of the brace-depth loop: it returns `dflt` when the
running depth never hits zero at a closing brace, and otherwise the
absolute index of the first closing brace at which the depth becomes
zero. -/
theorem braceScanEnd_spec :
    ∀ (t : List Char) (i : Nat) (d : Int) (dflt : Nat),
      (braceScanEnd t i d dflt = dflt ∧
        ∀ k, ¬(t[k]? = some '}' ∧ d + braceBalance (t.take (k + 1)) = 0)) ∨
      (∃ j, braceScanEnd t i d dflt = i + j ∧ t[j]? = some '}' ∧
        d + braceBalance (t.take (j + 1)) = 0 ∧
        ∀ k, k < j → ¬(t[k]? = some '}' ∧ d + braceBalance (t.take (k + 1)) = 0)) := by
  intro t
  induction t with
  | nil =>
    intro i d dflt
    left
    exact ⟨rfl, fun k => by simp⟩
  | cons c rest ih =>
    intro i d dflt
    have hbal1 : braceBalance ((c :: rest).take 1) = braceDelta c := by
      rw [show (c :: rest).take 1 = c :: List.take 0 rest from rfl]
      rw [braceBalance_cons]
      simp [braceBalance]
    by_cases hc : c = '}'
    · by_cases hd : d - 1 = 0
      · right
        refine ⟨0, ?_, ?_, ?_, fun k hk => absurd hk (by omega)⟩
        · simp [braceScanEnd, hc, hd]
        · simp [hc]
        · rw [hbal1]; subst hc; simp [braceDelta]; omega
      · have hstep : braceScanEnd (c :: rest) i d dflt =
            braceScanEnd rest (i + 1) (d - 1) dflt := by
          simp [braceScanEnd, hc, hd]
        have hdelta : braceDelta c = -1 := by subst hc; simp [braceDelta]
        have hcond0 : ¬((c :: rest)[0]? = some '}' ∧
            d + braceBalance ((c :: rest).take 1) = 0) := by
          rw [hbal1, hdelta]
          rintro ⟨-, hz⟩
          omega
        rcases ih (i + 1) (d - 1) dflt with ⟨he, hall⟩ | ⟨j, he, hget, hzero, hmin⟩
        · left
          refine ⟨hstep.trans he, fun k => ?_⟩
          cases k with
          | zero => exact hcond0
          | succ k =>
            rw [braceCond_shift, hdelta]
            have := hall k
            rw [show d + -1 = d - 1 by omega]
            exact this
        · right
          refine ⟨j + 1, ?_, ?_, ?_, ?_⟩
          · rw [hstep, he]; omega
          · rw [List.getElem?_cons_succ]; exact hget
          · rw [List.take_succ_cons, braceBalance_cons, hdelta]
            omega
          · intro k hk
            cases k with
            | zero => exact hcond0
            | succ k =>
              rw [braceCond_shift, hdelta]
              have := hmin k (by omega)
              rw [show d + -1 = d - 1 by omega]
              exact this
    · have hstep : braceScanEnd (c :: rest) i d dflt =
          braceScanEnd rest (i + 1) (d + braceDelta c) dflt := by
        by_cases h1 : c = '{'
        · subst h1; simp [braceScanEnd, braceDelta]
        · simp [braceScanEnd, hc, h1, braceDelta]
      have hcond0 : ¬((c :: rest)[0]? = some '}' ∧
          d + braceBalance ((c :: rest).take 1) = 0) := by
        rintro ⟨ha, -⟩
        simp at ha
        exact hc ha
      rcases ih (i + 1) (d + braceDelta c) dflt with ⟨he, hall⟩ | ⟨j, he, hget, hzero, hmin⟩
      · left
        refine ⟨hstep.trans he, fun k => ?_⟩
        cases k with
        | zero => exact hcond0
        | succ k => rw [braceCond_shift]; exact hall k
      · right
        refine ⟨j + 1, ?_, ?_, ?_, ?_⟩
        · rw [hstep, he]; omega
        · rw [List.getElem?_cons_succ]; exact hget
        · rw [List.take_succ_cons, braceBalance_cons]; omega
        · intro k hk
          cases k with
          | zero => exact hcond0
          | succ k => rw [braceCond_shift]; exact hmin k (by omega)

/-- While no closing brace has brought the balance to zero, the balance of
every nonempty prefix of a class body (which starts with `{`) stays
positive. -/
theorem braceBalance_pos (t : List Char) (h0 : t[0]? = some '{') (K : Nat)
    (hnb : ∀ k, k < K → ¬(t[k]? = some '}' ∧ braceBalance (t.take (k + 1)) = 0)) :
    ∀ k, 1 ≤ k → k ≤ K → k ≤ t.length → 1 ≤ braceBalance (t.take k) := by
  intro k
  induction k with
  | zero => omega
  | succ k ihk =>
    intro _ hK hlen
    by_cases hk0 : k = 0
    · subst hk0
      cases t with
      | nil => simp at h0
      | cons a t' =>
        simp at h0
        subst h0
        rw [show ('{' :: t').take 1 = '{' :: List.take 0 t' from rfl, braceBalance_cons]
        simp [braceBalance, braceDelta]
    · have ih := ihk (by omega) (by omega) (by omega)
      have hklen : k < t.length := by omega
      have hsome : t[k]? = some t[k] := List.getElem?_eq_getElem hklen
      rw [braceBalance_take_succ t k t[k] hsome]
      by_cases hbr : t[k] = '}'
      · have hnz : braceBalance (t.take (k + 1)) ≠ 0 := by
          intro hz
          exact hnb k (by omega) ⟨by rw [hsome, hbr], hz⟩
        rw [braceBalance_take_succ t k t[k] hsome] at hnz
        rw [hbr] at hnz ⊢
        simp only [braceDelta] at hnz ⊢
        norm_num at hnz ⊢
        omega
      · by_cases hop : t[k] = '{'
        · rw [hop]; simp only [braceDelta]; norm_num; omega
        · rw [show braceDelta t[k] = 0 by simp [braceDelta, hop, hbr]]
          omega

theorem indexOfFromAux_some_spec (c : Char) :
    ∀ (l : List Char) (i j : Nat), indexOfFromAux c l i = some j →
      i ≤ j ∧ l[j - i]? = some c ∧ ∀ k, k < j - i → l[k]? ≠ some c := by
  intro l
  induction l with
  | nil => intro i j h; simp [indexOfFromAux] at h
  | cons a t ih =>
    intro i j h
    rw [indexOfFromAux] at h
    by_cases ha : a = c
    · rw [if_pos ha] at h
      have hj : j = i := by
        have := Option.some.inj h
        omega
      subst hj
      refine ⟨Nat.le_refl _, ?_, ?_⟩
      · simp [ha]
      · intro k hk
        omega
    · rw [if_neg ha] at h
      obtain ⟨h1, h2, h3⟩ := ih (i + 1) j h
      refine ⟨by omega, ?_, ?_⟩
      · have : j - i = (j - (i + 1)) + 1 := by omega
        rw [this, List.getElem?_cons_succ]
        exact h2
      · intro k hk
        cases k with
        | zero => simpa using ha
        | succ k =>
          rw [List.getElem?_cons_succ]
          exact h3 k (by omega)

theorem indexOfFromAux_none_spec (c : Char) :
    ∀ (l : List Char) (i : Nat), indexOfFromAux c l i = none →
      ∀ (k : Nat), l[k]? ≠ some c := by
  intro l
  induction l with
  | nil => intro i _ k; simp
  | cons a t ih =>
    intro i h k
    rw [indexOfFromAux] at h
    by_cases ha : a = c
    · rw [if_pos ha] at h; exact absurd h (by simp)
    · rw [if_neg ha] at h
      cases k with
      | zero => simpa using ha
      | succ k => rw [List.getElem?_cons_succ]; exact ih (i + 1) h k

/-- Success of `indexOfFrom cs c start` yields the first index `≥ start`
holding `c`. -/
theorem indexOfFrom_some_spec (cs : List Char) (c : Char) (start b : Nat)
    (h : indexOfFrom cs c start = some b) :
    start ≤ b ∧ cs[b]? = some c ∧
      ∀ k, start ≤ k → k < b → cs[k]? ≠ some c := by
  obtain ⟨h1, h2, h3⟩ := indexOfFromAux_some_spec c (cs.drop start) start b h
  rw [List.getElem?_drop] at h2
  rw [show start + (b - start) = b by omega] at h2
  refine ⟨h1, h2, fun k hk1 hk2 => ?_⟩
  have := h3 (k - start) (by omega)
  rw [List.getElem?_drop, show start + (k - start) = k by omega] at this
  exact this

/-- Failure of `indexOfFrom cs c start` means no index `≥ start` holds `c`. -/
theorem indexOfFrom_none_spec (cs : List Char) (c : Char) (start : Nat)
    (h : indexOfFrom cs c start = none) :
    ∀ k, start ≤ k → cs[k]? ≠ some c := by
  intro k hk
  have := indexOfFromAux_none_spec c (cs.drop start) start h (k - start)
  rw [List.getElem?_drop, show start + (k - start) = k by omega] at this
  exact this

/-- Unfolding `extractClassMethodsL` once the brace search has succeeded. -/
theorem extractClassMethodsL_eq (cs : List Char) (classStart b : Nat)
    (h : indexOfFrom cs '{' classStart = some b) :
    extractClassMethodsL cs classStart =
      scanMethods
        ((cs.take (braceScanEnd (cs.drop b) b 0 cs.length)).drop (b + 1)).length
        ((cs.take (braceScanEnd (cs.drop b) b 0 cs.length)).drop (b + 1)) := by
  unfold extractClassMethodsL
  rw [h]

/-- C2: the brace-scoped method scanner, characterized.  If no `{` occurs
at or after the class offset the scanner returns the empty sequence;
otherwise, writing `t` for the source suffix starting at the first such
`{`, there is a body bound `m ≤ t.length` such that the brace balance of
every nonempty prefix of `t` of length `≤ m` is nonzero (depth has not
returned to zero), the balance first returns to zero right at position
`m` when `m` is inside the source (`m < t.length`), the class body is
`(t.take m).drop 1` — so a missing closing brace (`m = t.length`) yields
the rest of the file — and the scanner returns exactly the method
matches of that body.  The scanner is a total function: it always
returns a list and the enclosing analysis cannot fail here. -/
theorem extractClassMethods_spec (source : String) (classStart : Nat) :
    (indexOfFrom source.data '{' classStart = none →
      extractClassMethods source classStart = [] ∧
      ∀ (k : Nat), classStart ≤ k → source.data[k]? ≠ some '{') ∧
    (∀ b, indexOfFrom source.data '{' classStart = some b →
      classStart ≤ b ∧ source.data[b]? = some '{' ∧
      (∀ (k : Nat), classStart ≤ k → k < b → source.data[k]? ≠ some '{') ∧
      ∃ m, m ≤ (source.data.drop b).length ∧
        (∀ (k : Nat), 1 ≤ k → k ≤ m →
          braceBalance ((source.data.drop b).take k) ≠ 0) ∧
        (m < (source.data.drop b).length →
          braceBalance ((source.data.drop b).take (m + 1)) = 0) ∧
        extractClassMethods source classStart =
          scanMethods (((source.data.drop b).take m).drop 1).length
            (((source.data.drop b).take m).drop 1)) := by
  constructor
  · intro h
    refine ⟨?_, indexOfFrom_none_spec _ _ _ h⟩
    unfold extractClassMethods extractClassMethodsL
    rw [h]
  · intro b h
    obtain ⟨hb1, hb2, hb3⟩ := indexOfFrom_some_spec source.data '{' classStart b h
    refine ⟨hb1, hb2, hb3, ?_⟩
    have h0 : (source.data.drop b)[0]? = some '{' := by
      rw [List.getElem?_drop]
      simpa using hb2
    have hunfold := extractClassMethodsL_eq source.data classStart b h
    rcases braceScanEnd_spec (source.data.drop b) b 0 source.data.length with
      ⟨he, hall⟩ | ⟨j, he, hget, hzero, hmin⟩
    · refine ⟨(source.data.drop b).length, Nat.le_refl _, ?_, by omega, ?_⟩
      · intro k hk1 hk2
        have hpos := braceBalance_pos (source.data.drop b) h0
          (source.data.drop b).length
          (fun k2 _ hcond => hall k2 ⟨hcond.1, by omega⟩)
          k hk1 hk2 hk2
        omega
      · unfold extractClassMethods
        rw [hunfold, he]
        simp only [List.take_length, List.drop_drop]
    · have hjlen : j < (source.data.drop b).length := by
        by_contra hge
        rw [List.getElem?_eq_none (by omega)] at hget
        simp at hget
      refine ⟨j, by omega, ?_, fun _ => by omega, ?_⟩
      · intro k hk1 hk2
        have hpos := braceBalance_pos (source.data.drop b) h0 j
          (fun k2 hk2' hcond => hmin k2 hk2' ⟨hcond.1, by omega⟩)
          k hk1 hk2 (by omega)
        omega
      · unfold extractClassMethods
        rw [hunfold, he]
        have h1 := List.drop_take (b + j) b source.data
        rw [show b + j - b = j by omega] at h1
        rw [← h1, List.drop_drop]

/-! ### Method scanner keyword rejection (C3) -/

theorem scanMethods_no_control_kw :
    ∀ (fuel : Nat) (s : List Char) (m : Method),
      m ∈ scanMethods fuel s → m.name ∉ controlKWs := by
  intro fuel
  induction fuel with
  | zero => intro s m hm; simp [scanMethods] at hm
  | succ fuel ih =>
    intro s m hm
    simp only [scanMethods] at hm
    cases hmm : matchMethod s with
    | some r =>
      obtain ⟨nm, pr, n⟩ := r
      rw [hmm] at hm
      dsimp only at hm
      by_cases hkw : String.mk nm ∈ controlKWs
      · rw [if_pos hkw] at hm
        exact ih _ m hm
      · rw [if_neg hkw] at hm
        rcases List.mem_cons.mp hm with hhead | htail
        · subst hhead; exact hkw
        · exact ih _ m htail
    | none =>
      rw [hmm] at hm
      dsimp only at hm
      cases s with
      | nil => simp at hm
      | cons c t => exact ih t m hm

set_option maxRecDepth 20000 in
/-- C3: no entry of the method sequence is named after a control-flow
keyword (`if`, `for`, `while`, `switch`, `catch`); and on a class with
three genuine methods plus an `if` control statement that textually
matches the method pattern, the extractor returns exactly the three
genuine methods. -/
theorem extractClassMethods_no_control_kw :
    (∀ (source : String) (classStart : Nat) (m : Method),
      m ∈ extractClassMethods source classStart → m.name ∉ controlKWs) ∧
    extractJSExports calcClassSource =
      [ExportSym.cls "Calc" none
        [{ name := "add", signature := "add(a, b)" },
         { name := "sub", signature := "sub(a, b)" },
         { name := "mul", signature := "mul(a, b)" }]
        "class Calc"] := by
  constructor
  · intro source classStart m hm
    unfold extractClassMethods extractClassMethodsL at hm
    cases hio : indexOfFrom source.data '{' classStart with
    | none => rw [hio] at hm; simp at hm
    | some b =>
      rw [hio] at hm
      exact scanMethods_no_control_kw _ _ m hm
  · decide

set_option maxRecDepth 20000 in
/-- Witness for C3 at a concrete class body. -/
theorem extractClassMethods_no_control_kw_witness :
    ({ name := "add", signature := "add(a, b)" } : Method) ∈
        extractClassMethods calcClassSource 0 ∧
      ({ name := "add", signature := "add(a, b)" } : Method).name ∉ controlKWs :=
  ⟨by decide, extractClassMethods_no_control_kw.1 calcClassSource 0 _ (by decide)⟩

/-- Witness for C2 on a source without an opening brace and on one with a
class body (both branches of the characterization). -/
theorem extractClassMethods_spec_witness :
    extractClassMethods "class A" 0 = [] ∧
      ("class B \x7bf() \x7b\x7d\x7d" : String).data[8]? = some '{' :=
  ⟨((extractClassMethods_spec "class A" 0).1 (by decide)).1,
   ((extractClassMethods_spec "class B \x7bf() \x7b\x7d\x7d" 0).2 8 (by decide)).2.1⟩

/-! ### JS export extraction examples (C1) -/

set_option maxRecDepth 20000 in
/-- C1: `extractExports` on `export function add(a, b) {}` yields exactly
one function symbol named `add` with `isAsync = false` and signature
`add(a, b)`; on `export async function fetchUser(id) {}` the symbol has
`isAsync = true`.  `isAsync` is literally the presence of `async` in the
25-character window from the match start, as the third example (where the
marker appears in the window only as a parameter name) exhibits. -/
theorem extractJSExports_examples :
    extractJSExports "export function add(a, b) \x7b\x7d" =
        [ExportSym.func "add" "add(a, b)" false false] ∧
      extractJSExports "export async function fetchUser(id) \x7b\x7d" =
        [ExportSym.func "fetchUser" "fetchUser(id)" true false] ∧
      extractJSExports "export function a(async) \x7b\x7d" =
        [ExportSym.func "a" "a(async)" true false] :=
  ⟨by decide, by decide, by decide⟩

/-! ### Python export extraction (C7) -/

theorem scanPyFuncs_no_underscore :
    ∀ (fuel : Nat) (s : List Char) (flag : Bool) (name sig : String) (a d : Bool),
      ExportSym.func name sig a d ∈ scanPyFuncs fuel s flag →
      matchesPrefix ['_'] name.data = false := by
  intro fuel
  induction fuel with
  | zero => intro s flag name sig a d hm; simp [scanPyFuncs] at hm
  | succ fuel ih =>
    intro s flag name sig a d hm
    simp only [scanPyFuncs] at hm
    cases s with
    | nil => simp at hm
    | cons c t =>
      cases hpm : (if flag then matchPyFunc (c :: t) else none) with
      | some r =>
        obtain ⟨nm, pr, n⟩ := r
        rw [hpm] at hm
        dsimp only at hm
        by_cases hu : matchesPrefix ['_'] nm = true
        · rw [if_pos hu] at hm
          exact ih _ _ name sig a d hm
        · rw [if_neg hu] at hm
          rcases List.mem_cons.mp hm with hhead | htail
          · have hname : name = String.mk nm := by
              injection hhead
            rw [hname]
            simpa using hu
          · exact ih _ _ name sig a d htail
      | none =>
        rw [hpm] at hm
        dsimp only at hm
        exact ih _ _ name sig a d hm

theorem scanPyClasses_no_func :
    ∀ (fuel : Nat) (s : List Char) (flag : Bool) (name sig : String) (a d : Bool),
      ExportSym.func name sig a d ∉ scanPyClasses fuel s flag := by
  intro fuel
  induction fuel with
  | zero => intro s flag name sig a d hm; simp [scanPyClasses] at hm
  | succ fuel ih =>
    intro s flag name sig a d hm
    simp only [scanPyClasses] at hm
    cases s with
    | nil => simp at hm
    | cons c t =>
      cases hpm : (if flag then matchPyClass (c :: t) else none) with
      | some r =>
        obtain ⟨nm, b, n⟩ := r
        rw [hpm] at hm
        dsimp only at hm
        rcases List.mem_cons.mp hm with hhead | htail
        · exact ExportSym.noConfusion hhead
        · exact ih _ _ name sig a d htail
      | none =>
        rw [hpm] at hm
        dsimp only at hm
        exact ih _ _ name sig a d hm

/-- C7: the Python export extractor never returns a function whose name
starts with an underscore (the pattern is line-anchored, as the
leading-space example exhibits): `def _helper(): pass` yields zero
symbols, `def public_fn(x): pass` yields exactly one function symbol
named `public_fn`. -/
theorem extractPythonExports_spec :
    (∀ (src name sig : String) (a d : Bool),
      ExportSym.func name sig a d ∈ extractPythonExports src →
      matchesPrefix ['_'] name.data = false) ∧
    extractPythonExports "def _helper(): pass" = [] ∧
    extractPythonExports "def public_fn(x): pass" =
      [ExportSym.func "public_fn" "public_fn(x)" false false] ∧
    extractPythonExports " def indented(): pass" = [] := by
  refine ⟨?_, by decide, by decide, by decide⟩
  intro src name sig a d hm
  unfold extractPythonExports at hm
  rcases List.mem_append.mp hm with h1 | h2
  · exact scanPyFuncs_no_underscore _ _ _ name sig a d h1
  · exact absurd h2 (scanPyClasses_no_func _ _ _ name sig a d)

/-- Witness for C7: the one symbol of `def public_fn(x): pass` indeed has
no leading underscore. -/
theorem extractPythonExports_spec_witness :
    ExportSym.func "public_fn" "public_fn(x)" false false ∈
        extractPythonExports "def public_fn(x): pass" ∧
      matchesPrefix ['_'] ("public_fn" : String).data = false :=
  ⟨by decide,
   extractPythonExports_spec.1 "def public_fn(x): pass" "public_fn" "public_fn(x)"
     false false (by decide)⟩

/-! ### Import extraction examples (C8) -/

set_option maxRecDepth 20000 in
/-- C8: one `ImportReference` per matched import statement, in first-seen
order, duplicates preserved, capturing only the module specifier: a
braced binding form, a bare import, a default binding, a namespace
binding and a mixed binding list for JS; `from … import` and `import …`
forms (line-anchored, as the indented example exhibits) for Python. -/
theorem extractImports_examples :
    extractJSImports "import \x7b a \x7d from 'm'\nimport 'side'\nimport x from 'm'" =
        ["m", "side", "m"] ∧
      extractJSImports "import * as ns from \"pkg\"\nimport d, \x7b e, f \x7d from './rel'" =
        ["pkg", "./rel"] ∧
      extractPythonImports "from os import path\nimport sys\nimport sys" =
        ["os", "sys", "sys"] ∧
      extractPythonImports "  import indented" = [] :=
  ⟨by decide, by decide, by decide, by decide⟩

/-! ### Manifest dependency priority (C4) -/

/-- C4: for a present-and-parseable manifest the dependency decision is by
substring presence on the single lower-cased stringified blob of
dependencies, devDependencies and scripts, testing `vitest`, then `jest`,
then `mocha`, returning the first match; via the locator, the manifest of
the file's own directory decides when it matches; and the
vitest-plus-jest manifest yields `vitest`. -/
theorem frameworkFromPkg_priority (p : Pkg) :
    (containsSub (depsStr p) "vitest" = true → frameworkFromPkg p = some "vitest") ∧
    (containsSub (depsStr p) "vitest" = false → containsSub (depsStr p) "jest" = true →
      frameworkFromPkg p = some "jest") ∧
    (containsSub (depsStr p) "vitest" = false → containsSub (depsStr p) "jest" = false →
      containsSub (depsStr p) "mocha" = true → frameworkFromPkg p = some "mocha") ∧
    (containsSub (depsStr p) "vitest" = false → containsSub (depsStr p) "jest" = false →
      containsSub (depsStr p) "mocha" = false → frameworkFromPkg p = none) ∧
    (∀ (fs : FS) (path fw : String),
      fs.pkg (dirname path) = some p → frameworkFromPkg p = some fw →
      detectFramework fs path = some fw) ∧
    frameworkFromPkg vitestJestPkg = some "vitest" := by
  refine ⟨?_, ?_, ?_, ?_, ?_, by decide⟩
  · intro h; simp [frameworkFromPkg, h]
  · intro h1 h2; simp [frameworkFromPkg, h1, h2]
  · intro h1 h2 h3; simp [frameworkFromPkg, h1, h2, h3]
  · intro h1 h2 h3; simp [frameworkFromPkg, h1, h2, h3]
  · intro fs path fw h1 h2
    show detectLoop fs (dirname path :: parentDirs 4 (dirname path)) = some fw
    have hstep : dirStep fs (dirname path) = some fw := by
      unfold dirStep
      rw [h1]
      dsimp only [Option.bind]
      rw [h2]
    simp [detectLoop, hstep]

/-- Witness for C4: the tie-break manifest, both directly and through the
locator. -/
theorem frameworkFromPkg_priority_witness :
    containsSub (depsStr vitestJestPkg) "vitest" = true ∧
      frameworkFromPkg vitestJestPkg = some "vitest" ∧
      fsVitestJest.pkg (dirname "/p/a.js") = some vitestJestPkg ∧
      detectFramework fsVitestJest "/p/a.js" = some "vitest" :=
  ⟨by decide, (frameworkFromPkg_priority vitestJestPkg).1 (by decide), rfl,
   (frameworkFromPkg_priority vitestJestPkg).2.2.2.2.1 fsVitestJest "/p/a.js" "vitest"
     rfl (by decide)⟩

/-! ### Search-list shape and the unknown result (C5) -/

theorem parentDirs_length_le : ∀ (n : Nat) (c : String), (parentDirs n c).length ≤ n := by
  intro n
  induction n with
  | zero => intro c; simp [parentDirs]
  | succ n ih =>
    intro c
    rw [parentDirs]
    by_cases h : dirname c = c
    · rw [if_pos h]; simp
    · rw [if_neg h]
      have := ih (dirname c)
      simp [List.length_cons]
      omega

theorem parentDirs_chain : ∀ (n : Nat) (c : String),
    List.Chain' (fun a b => b = dirname a) (c :: parentDirs n c) := by
  intro n
  induction n with
  | zero => intro c; simp [parentDirs]
  | succ n ih =>
    intro c
    rw [parentDirs]
    by_cases h : dirname c = c
    · rw [if_pos h]; simp
    · rw [if_neg h]
      exact List.chain'_cons.mpr ⟨rfl, ih (dirname c)⟩

theorem parentDirs_last_fixpoint : ∀ (n : Nat) (c x : String),
    (parentDirs n c).length < n → (c :: parentDirs n c).getLast? = some x →
    dirname x = x := by
  intro n
  induction n with
  | zero => intro c x h _; exact absurd h (Nat.not_lt_zero _)
  | succ n ih =>
    intro c x hl hlast
    by_cases h : dirname c = c
    · rw [parentDirs, if_pos h] at hlast
      have hx : x = c := by
        simpa using hlast.symm
      rw [hx]
      exact h
    · rw [parentDirs, if_neg h] at hl hlast
      rw [List.getLast?_cons_cons] at hlast
      have hl2 : (parentDirs n (dirname c)).length < n := by
        simp [List.length_cons] at hl
        omega
      exact ih (dirname c) x hl2 hlast

theorem detectLoop_none : ∀ (l : List String) (fs : FS),
    (∀ d ∈ l, dirStep fs d = none) → detectLoop fs l = none := by
  intro l fs
  induction l with
  | nil => intro _; rfl
  | cons d rest ih =>
    intro h
    simp only [detectLoop]
    rw [h d (List.mem_cons_self d rest)]
    exact ih fun d2 hd2 => h d2 (List.mem_cons_of_mem d hd2)

/-- C5: the search list is the containing directory followed by at most 4
ancestors — each entry is the `dirname` of the previous one, and when the
walk stops early the last entry is a `dirname` fixpoint (the filesystem
root); whenever no searched directory yields a manifest, project-file or
config-file result, the locator returns `none`. -/
theorem detectFramework_search_spec (p : String) (fs : FS) :
    (searchDirs p).length ≤ 5 ∧
    (searchDirs p).head? = some (dirname p) ∧
    List.Chain' (fun a b => b = dirname a) (searchDirs p) ∧
    ((searchDirs p).length < 5 →
      ∀ x, (searchDirs p).getLast? = some x → dirname x = x) ∧
    ((∀ d ∈ searchDirs p,
        (fs.pkg d).bind frameworkFromPkg = none ∧ pyCheck fs d = none ∧
          configCheck fs d = none) →
      detectFramework fs p = none) := by
  refine ⟨?_, rfl, parentDirs_chain 4 (dirname p), ?_, ?_⟩
  · show (dirname p :: parentDirs 4 (dirname p)).length ≤ 5
    have := parentDirs_length_le 4 (dirname p)
    simp [List.length_cons]
    omega
  · intro hl x hlast
    refine parentDirs_last_fixpoint 4 (dirname p) x ?_ hlast
    have : (searchDirs p).length = (parentDirs 4 (dirname p)).length + 1 := by
      simp [searchDirs, List.length_cons]
    omega
  · intro h
    refine detectLoop_none _ fs fun d hd => ?_
    obtain ⟨h1, h2, h3⟩ := h d hd
    unfold dirStep
    rw [h1, h2, h3]

/-- Witness for C5: a path three levels deep stops early at the root `/`,
a `dirname` fixpoint, and an empty filesystem yields `none`. -/
theorem detectFramework_search_spec_witness :
    dirname "/" = "/" ∧ detectFramework fsEmpty "/a/b/c.js" = none :=
  ⟨(detectFramework_search_spec "/a/b/c.js" fsEmpty).2.2.2.1 (by decide) "/" (by decide),
   (detectFramework_search_spec "/a/b/c.js" fsEmpty).2.2.2.2 (fun d _ => ⟨rfl, rfl, rfl⟩)⟩

/-! ### Unsupported file types (C6) -/

/-- C6: when the extension is unrecognized, `analyzeFile` fails with
`UnsupportedFileType` naming the offending extension, for every
filesystem alike — in particular no read of the source content can have
influenced the result, and no partial analysis is produced. -/
theorem analyzeFile_unsupported (path : String) (h : detectLanguage path = none) :
    ∀ fs : FS, analyzeFile fs path = .error (.unsupportedFileType (extname path)) := by
  intro fs
  unfold analyzeFile
  rw [h]

/-- Witness for C6: a `.rb` file, under a filesystem where the file is
readable and under one where it is not, fails identically. -/
theorem analyzeFile_unsupported_witness :
    detectLanguage "app.rb" = none ∧
      analyzeFile fsReadable "app.rb" = .error (.unsupportedFileType (extname "app.rb")) ∧
      analyzeFile fsEmpty "app.rb" = .error (.unsupportedFileType (extname "app.rb")) :=
  ⟨by decide, analyzeFile_unsupported "app.rb" (by decide) fsReadable,
   analyzeFile_unsupported "app.rb" (by decide) fsEmpty⟩

/-! ### Language classification (C9) -/

theorem lookup_eq_some_iff_mem :
    ∀ (l : List (String × String)), (l.map Prod.fst).Nodup →
      ∀ (k v : String), l.lookup k = some v ↔ (k, v) ∈ l := by
  intro l
  induction l with
  | nil => intro _ k v; simp [List.lookup]
  | cons a t ih =>
    intro hnd k v
    obtain ⟨a1, a2⟩ := a
    rw [List.map_cons, List.nodup_cons] at hnd
    simp only [List.lookup]
    by_cases hka : k = a1
    · subst hka
      rw [show (k == k) = true by simp]
      dsimp only
      constructor
      · intro h
        exact List.mem_cons.mpr (Or.inl (by simpa using (Option.some.inj h).symm))
      · intro h
        rcases List.mem_cons.mp h with he | ht
        · have : v = a2 := by
            have := congrArg Prod.snd he
            simpa using this
          rw [this]
        · exact absurd (List.mem_map_of_mem Prod.fst ht) hnd.1
    · rw [show (k == a1) = false by simpa using hka]
      dsimp only
      rw [ih hnd.2 k v]
      constructor
      · exact fun h => List.mem_cons.mpr (Or.inr h)
      · intro h
        rcases List.mem_cons.mp h with he | ht
        · exact absurd (congrArg Prod.fst he) (by simpa using hka)
        · exact ht

/-- C9: `classify` is total and depends only on the lower-cased extension;
its `some` results are exactly the entries of the extension table, every
extension outside the table yields `none`, and `App.TSX` / `style.css`
classify as claimed. -/
theorem detectLanguage_spec :
    (∀ p q : String, asciiLower (extname p) = asciiLower (extname q) →
      detectLanguage p = detectLanguage q) ∧
    (∀ p lang : String, detectLanguage p = some lang ↔
      (asciiLower (extname p), lang) ∈ LANGUAGE_MAP) ∧
    (∀ p : String, (∀ lang, (asciiLower (extname p), lang) ∉ LANGUAGE_MAP) →
      detectLanguage p = none) ∧
    detectLanguage "App.TSX" = some "typescript" ∧
    detectLanguage "style.css" = none := by
  have hiff : ∀ p lang : String, detectLanguage p = some lang ↔
      (asciiLower (extname p), lang) ∈ LANGUAGE_MAP := fun p lang =>
    lookup_eq_some_iff_mem LANGUAGE_MAP (by decide) (asciiLower (extname p)) lang
  refine ⟨?_, hiff, ?_, by decide, by decide⟩
  · intro p q h
    unfold detectLanguage
    rw [h]
  · intro p hall
    cases hd : detectLanguage p with
    | none => rfl
    | some lang => exact absurd ((hiff p lang).mp hd) (hall lang)

/-- Witness for C9: two paths with the same lower-cased extension classify
identically, and a `.rb` path classifies as `none`. -/
theorem detectLanguage_spec_witness :
    asciiLower (extname "a.JS") = asciiLower (extname "b.js") ∧
      detectLanguage "a.JS" = detectLanguage "b.js" ∧
      detectLanguage "c.rb" = none := by
  refine ⟨by decide, detectLanguage_spec.1 "a.JS" "b.js" (by decide), ?_⟩
  refine detectLanguage_spec.2.2.1 "c.rb" ?_
  intro lang hmem
  rw [show asciiLower (extname "c.rb") = ".rb" by decide] at hmem
  simp [LANGUAGE_MAP] at hmem

/-! ### Config-file order (C10) -/

theorem configCheck_jest (fs : FS) (d : String)
    (h : fs.fileExists d "jest.config.js" = true) :
    configCheck fs d = some "jest" := by
  unfold configCheck FRAMEWORK_CONFIG_FILES configCheckList
  simp [h]

/-- C10: the config-file existence check proceeds in the fixed order jest,
vitest, mocha, pytest; a directory whose manifest and project file give
no signal but which contains both `jest.config.js` and
`vitest.config.ts` makes the locator return `jest` — the opposite of the
dependency-string priority. -/
theorem configCheck_order_spec :
    FRAMEWORK_CONFIG_FILES.map Prod.fst = ["jest", "vitest", "mocha", "pytest"] ∧
    (∀ (fs : FS) (d : String), fs.fileExists d "jest.config.js" = true →
      configCheck fs d = some "jest") ∧
    (∀ (fs : FS) (path : String),
      (fs.pkg (dirname path)).bind frameworkFromPkg = none →
      pyCheck fs (dirname path) = none →
      fs.fileExists (dirname path) "jest.config.js" = true →
      fs.fileExists (dirname path) "vitest.config.ts" = true →
      detectFramework fs path = some "jest") := by
  refine ⟨by decide, configCheck_jest, ?_⟩
  intro fs path h1 h2 h3 _
  show detectLoop fs (dirname path :: parentDirs 4 (dirname path)) = some "jest"
  have hstep : dirStep fs (dirname path) = some "jest" := by
    unfold dirStep
    rw [h1, h2]
    exact configCheck_jest fs (dirname path) h3
  simp [detectLoop, hstep]

/-- Witness for C10: the two-config filesystem yields `jest` for a file in
any directory. -/
theorem configCheck_order_spec_witness :
    (fsTwoConfigs.pkg (dirname "/a/b/c.js")).bind frameworkFromPkg = none ∧
      pyCheck fsTwoConfigs (dirname "/a/b/c.js") = none ∧
      fsTwoConfigs.fileExists (dirname "/a/b/c.js") "jest.config.js" = true ∧
      fsTwoConfigs.fileExists (dirname "/a/b/c.js") "vitest.config.ts" = true ∧
      detectFramework fsTwoConfigs "/a/b/c.js" = some "jest" :=
  ⟨rfl, rfl, by decide, by decide,
   configCheck_order_spec.2.2 fsTwoConfigs "/a/b/c.js" rfl rfl (by decide) (by decide)⟩

end TestGen
